import Mathlib

/-!
Verification development for the mtslinker timeline-reconstruction core
(`mtslinker/processor.py`).

The embedding is shallow: Python floats become `ℚ` with exact arithmetic,
`int(x)` becomes truncation toward zero, fallible external collaborators
(downloader, video/audio decoders, encoder) become explicit parameters
returning `Option`/a failure flag, and the moviepy clip objects become
inductive descriptions of what the code built (segment lists for the video
timeline, scheduled-track lists for the audio composite).
-/

namespace Mtslinker

/-- A loaded video fragment handle (moviepy `VideoFileClip`): frame width `w`,
height `h` (pixels) and duration in seconds. -/
structure VideoClip where
  w : ℕ
  h : ℕ
  duration : ℚ
deriving DecidableEq, Repr, Inhabited

/-- A loaded audio fragment handle (moviepy `AudioFileClip`): duration in seconds. -/
structure AudioClip where
  duration : ℚ
deriving DecidableEq, Repr, Inhabited

/-- Python `int(x)` applied to a float: truncation toward zero. -/
def pyInt (q : ℚ) : ℤ := if q < 0 then ⌈q⌉ else ⌊q⌋

/-- One element of the built video timeline: either
`ColorClip(size=(w, h), color=(r, g, b), duration=d)` or a real fragment. -/
inductive Segment where
  | colorClip (w h : ℕ) (r g b : ℕ) (duration : ℚ)
  | clip (v : VideoClip)
deriving DecidableEq, Repr

/-- Duration in seconds of one segment. -/
def Segment.dur : Segment → ℚ
  | .colorClip _ _ _ _ _ d => d
  | .clip v => v.duration

/-- Duration of `concatenate_videoclips(clips, method='chain')`:
the clips play back to back, so the total is the sum of the parts. -/
def videoDuration (segs : List Segment) : ℚ := (segs.map Segment.dur).sum

/-- Python's `sorted(clips, key=lambda x: x[0])`: a stable sort, ascending in the
first component.  `List.insertionSort` with `a.1 ≤ b.1` is stable in the same
sense: elements with equal keys keep their input order. -/
def sortByStart {β : Type} (l : List (ℚ × β)) : List (ℚ × β) :=
  List.insertionSort (fun a b => a.1 ≤ b.1) l

/-- The `for start_time, video in video_clips_sorted` loop of
`create_video_with_gaps`, started at `current`: when `start_time > current_time`
and the gap exceeds 0.01 s, a black filler of the gap length is appended and
`current_time` advances by the gap; then the fragment is appended and
`current_time` advances by the fragment's own duration.  Returns the appended
segments and the final `current_time`. -/
def videoLoop (w h : ℕ) (current : ℚ) : List (ℚ × VideoClip) → List Segment × ℚ
  | [] => ([], current)
  | (s, v) :: rest =>
    let step : List Segment × ℚ :=
      if s > current then
        if s - current > 1/100 then
          ([Segment.colorClip w h 0 0 0 (s - current)], current + (s - current))
        else ([], current)
      else ([], current)
    let next := videoLoop w h (step.2 + v.duration) rest
    (step.1 ++ Segment.clip v :: next.1, next.2)

/-- `create_video_with_gaps(total_duration, video_clips)`.  The returned moviepy
clip is represented by the list of clips handed to `concatenate_videoclips`
(for the empty input, by the single `ColorClip` returned directly). -/
def create_video_with_gaps (total_duration : ℚ) (video_clips : List (ℚ × VideoClip)) :
    List Segment :=
  if video_clips.isEmpty then
    [Segment.colorClip 1920 1080 0 0 0 total_duration]
  else
    let sorted := sortByStart video_clips
    let w := (sorted.headD (0, default)).2.w
    let h := (sorted.headD (0, default)).2.h
    let walked := videoLoop w h 0 sorted
    if walked.2 < total_duration then
      if total_duration - walked.2 > 1/100 then
        walked.1 ++ [Segment.colorClip w h 0 0 0 (total_duration - walked.2)]
      else walked.1
    else walked.1

/-- One clip inside the audio composite: either a fragment scheduled with
`audio.with_start(start)`, or
`AudioArrayClip(np.zeros((samples, 2)), fps=44100).with_start(start)` —
`samples` zero-amplitude stereo samples at 44100 Hz, hence duration
`samples / 44100` seconds. -/
inductive ATrack where
  | file (start : ℚ) (a : AudioClip)
  | silence (start : ℚ) (samples : ℤ)
deriving DecidableEq, Repr

/-- The `end` attribute of a scheduled clip: `start + duration`. -/
def ATrack.clipEnd : ATrack → ℚ
  | .file s a => s + a.duration
  | .silence s n => s + (n : ℚ) / 44100

/-- The duration moviepy gives a `CompositeAudioClip`: the maximum of the
member clips' ends (the `[]` case never arises in the code and returns 0). -/
def maxEnd : List ATrack → ℚ
  | [] => 0
  | [t] => t.clipEnd
  | t :: u :: rest => max t.clipEnd (maxEnd (u :: rest))

/-- `create_audio_with_gaps(total_duration, audio_clips)`.  The returned clip is
represented by the list of clips inside the composite (for the empty input, by
the single `AudioArrayClip` of `int(total_duration * 44100)` silent samples). -/
def create_audio_with_gaps (total_duration : ℚ) (audio_clips : List (ℚ × AudioClip)) :
    List ATrack :=
  if audio_clips.isEmpty then
    [ATrack.silence 0 (pyInt (total_duration * 44100))]
  else
    let sorted := sortByStart audio_clips
    let audio_segments := sorted.map (fun p => ATrack.file p.1 p.2)
    let d := maxEnd audio_segments
    if d < total_duration then
      if total_duration - d > 1/100 then
        audio_segments ++ [ATrack.silence d (pyInt ((total_duration - d) * 44100))]
      else audio_segments
    else audio_segments

/-- A JSON value sitting under an event's `data` key: either not an object, or
an object that may or may not carry a `url` string. -/
inductive JsonData where
  | nonDict
  | dictData (url : Option String)
deriving DecidableEq

/-- One entry of `eventLogs`: either not an object (skipped by the
`isinstance(event, dict)` guard), or an object with optional `data` and
`relativeTime` fields. -/
inductive JsonEvent where
  | nonDict
  | dict (data : Option JsonData) (relativeTime : Option ℚ)
deriving DecidableEq

/-- The top-level input record: optional numeric `duration` and the `eventLogs`
array (a missing array behaves as `[]` through `json_data.get('eventLogs', [])`). -/
structure JsonInput where
  duration : Option ℚ
  eventLogs : List JsonEvent
deriving DecidableEq

/-- The only error `process_video_clips` raises itself:
`ValueError('Duration not found in JSON data.')`. -/
inductive ProcError where
  | missingDuration
deriving DecidableEq, Repr

/-- `download_video_chunk(url, directory)` combined with the
`os.path.exists` check: `none` covers both a falsy return and a missing file. -/
def Downloader : Type := String → String → Option String

/-- `VideoFileClip(path)`: `none` when the constructor raises. -/
def VideoOpener : Type := String → Option VideoClip

/-- `AudioFileClip(path)`: `none` when the constructor raises. -/
def AudioOpener : Type := String → Option AudioClip

/-- The body of the `for event in json_data.get('eventLogs', [])` loop of
`process_video_clips`, acting on the accumulated `(video_clips, audio_clips)`
pair.  Every failure path logs and leaves the accumulator unchanged. -/
def processEvent (dl : Downloader) (ov : VideoOpener) (oa : AudioOpener)
    (directory : String) (acc : List (ℚ × VideoClip) × List (ℚ × AudioClip))
    (e : JsonEvent) : List (ℚ × VideoClip) × List (ℚ × AudioClip) :=
  match e with
  | .nonDict => acc
  | .dict dataOpt rt =>
    match dataOpt with
    | none => acc
    | some .nonDict => acc
    | some (.dictData none) => acc
    | some (.dictData (some url)) =>
      let start_time := rt.getD 0
      match dl url directory with
      | none => acc
      | some path =>
        match ov path with
        | some v => (acc.1 ++ [(start_time, v)], acc.2)
        | none =>
          match oa path with
          | some a => (acc.1, acc.2 ++ [(start_time, a)])
          | none => acc

/-- `process_video_clips(directory, json_data)`:
`float(json_data.get('duration', 0))` is zero for a missing field, and a zero
value is falsy, so both raise; otherwise the event loop runs and the function
returns the duration with the two loaded-fragment lists. -/
def process_video_clips (dl : Downloader) (ov : VideoOpener) (oa : AudioOpener)
    (directory : String) (json_data : JsonInput) :
    Except ProcError (ℚ × List (ℚ × VideoClip) × List (ℚ × AudioClip)) :=
  let total_duration := json_data.duration.getD 0
  if total_duration = 0 then Except.error ProcError.missingDuration
  else
    let acc := json_data.eventLogs.foldl (processEvent dl ov oa directory) ([], [])
    Except.ok (total_duration, acc.1, acc.2)

/-- The composed result inside `compile_final_video`: the video timeline, the
audio composite attached by `with_audio` (`none` = no `with_audio` call, so the
native audio of the concatenated fragments passes through), and the `subclip`
cut when one was applied. -/
structure Composed where
  video : List Segment
  audio : Option (List ATrack)
  cut : Option ℚ
deriving DecidableEq

/-- Duration of the composed clip: `with_audio` keeps the video duration;
`subclip(0, t)` yields duration `t` for `t ≥ 0` (moviepy counts a negative end
back from the end of the clip). -/
def Composed.duration (c : Composed) : ℚ :=
  match c.cut with
  | none => videoDuration c.video
  | some m => if m < 0 then videoDuration c.video + m else m

/-- Observable outcome of one `compile_final_video` call: whether the call
returned normally (`ok = false` means the `except` block re-raised), the
composed clip the encoder successfully wrote, and which input fragment handles
had `close()` called on them before the call ended. -/
structure CompileResult where
  ok : Bool
  encoded : Option Composed
  closedVideo : List VideoClip
  closedAudio : List AudioClip
deriving DecidableEq

/-- `compile_final_video(total_duration, video_clips, audio_clips, output_path,
max_duration)`.  `writeFails` models the external encoder boundary: `true`
means `write_videofile` raises.  The source closes the result and the input
handles only after a successful write, inside the `try`; the `except` block
logs and re-raises without closing anything. -/
def compile_final_video (total_duration : ℚ) (video_clips : List (ℚ × VideoClip))
    (audio_clips : List (ℚ × AudioClip)) (max_duration : Option ℤ)
    (writeFails : Bool) : CompileResult :=
  let video_result : Composed :=
    ⟨create_video_with_gaps total_duration video_clips, none, none⟩
  let withAudio : Composed :=
    if audio_clips.isEmpty then video_result
    else { video_result with
            audio := some (create_audio_with_gaps total_duration audio_clips) }
  let capped : Composed :=
    match max_duration with
    | none => withAudio
    | some m =>
      if m = 0 then withAudio
      else if withAudio.duration > (m : ℚ) then { withAudio with cut := some (m : ℚ) }
      else withAudio
  if writeFails then ⟨false, none, [], []⟩
  else ⟨true, some capped, video_clips.map Prod.snd, audio_clips.map Prod.snd⟩

/-- Spec-side walk over the sorted fragments, written from the spec's words:
before each fragment, when the gap `start_time - current_time` exceeds the
0.01 s tolerance, a black filler of exactly that gap is emitted and
`current_time` advances by the gap (so it becomes `start_time`); a smaller gap
emits nothing; then the fragment itself is emitted and `current_time` advances
by the fragment's own duration — never jumping to `start_time + duration`. -/
def specVideoWalk (w h : ℕ) (current : ℚ) : List (ℚ × VideoClip) → List Segment × ℚ
  | [] => ([], current)
  | (s, v) :: rest =>
    if s - current > 1/100 then
      let next := specVideoWalk w h (s + v.duration) rest
      (Segment.colorClip w h 0 0 0 (s - current) :: Segment.clip v :: next.1, next.2)
    else
      let next := specVideoWalk w h (current + v.duration) rest
      (Segment.clip v :: next.1, next.2)

/-- Spec-side video timeline builder (spec §4.2): empty input gives one
1920×1080 filler; otherwise sort ascending by start time, take the filler frame
size from the first sorted fragment, walk from 0.0, and append one final filler
when the walk ends more than 0.01 s short of `total_duration`. -/
def specBuildVideo (total : ℚ) (clips : List (ℚ × VideoClip)) : List Segment :=
  if clips.isEmpty then [Segment.colorClip 1920 1080 0 0 0 total]
  else
    let sorted := sortByStart clips
    let w := (sorted.headD (0, default)).2.w
    let h := (sorted.headD (0, default)).2.h
    let walked := specVideoWalk w h 0 sorted
    if total - walked.2 > 1/100 then
      walked.1 ++ [Segment.colorClip w h 0 0 0 (total - walked.2)]
    else walked.1

/-- Concrete downloader that always yields the same local file. -/
def dlSome : Downloader := fun _ _ => some "chunk.mts"

/-- Concrete video decoder that always fails. -/
def ovNone : VideoOpener := fun _ => none

/-- Concrete audio decoder that always fails. -/
def oaNone : AudioOpener := fun _ => none

instance {β : Type} : IsTotal (ℚ × β) (fun a b => a.1 ≤ b.1) :=
  ⟨fun a b => le_total a.1 b.1⟩

instance {β : Type} : IsTrans (ℚ × β) (fun a b => a.1 ≤ b.1) :=
  ⟨fun _ _ _ h1 h2 => le_trans h1 h2⟩

lemma sortByStart_perm {β : Type} (l : List (ℚ × β)) : (sortByStart l).Perm l :=
  List.perm_insertionSort _ l

lemma sortByStart_sorted {β : Type} (l : List (ℚ × β)) :
    List.Sorted (fun a b => a.1 ≤ b.1) (sortByStart l) :=
  List.sorted_insertionSort _ l

@[simp] lemma videoDuration_nil : videoDuration [] = 0 := rfl

@[simp] lemma videoDuration_cons (s : Segment) (l : List Segment) :
    videoDuration (s :: l) = s.dur + videoDuration l := by
  simp [videoDuration]

@[simp] lemma videoDuration_append (a b : List Segment) :
    videoDuration (a ++ b) = videoDuration a + videoDuration b := by
  simp [videoDuration]

/-- The claim C8, as stated: with an empty fragment list and positive total
duration, the builder returns exactly one black 1920×1080 filler segment of
duration `total_duration`. -/
theorem claim_C8 (total : ℚ) (ht : 0 < total) :
    create_video_with_gaps total [] = [Segment.colorClip 1920 1080 0 0 0 total] := rfl

/-- Witness for C8 at `total_duration = 5`. -/
theorem claim_C8_witness :
    0 < (5:ℚ) ∧
      create_video_with_gaps 5 [] = [Segment.colorClip 1920 1080 0 0 0 5] :=
  ⟨by norm_num, claim_C8 5 (by norm_num)⟩

/-- Counterexample to C2 as stated: the input record `{duration: 0}` does
contain a `duration` field, yet `process_video_clips` raises the fatal
missing-duration error, because `float(json_data.get('duration', 0))` is falsy
for the value 0. -/
theorem claim_C2_cex :
    (JsonInput.mk (some 0) []).duration ≠ none ∧
      process_video_clips dlSome ovNone oaNone "dir" ⟨some 0, []⟩ =
        Except.error ProcError.missingDuration := by
  refine ⟨by simp, ?_⟩
  simp [process_video_clips]

/-- C2 amended: the fatal missing-duration error is raised if and only if the
`duration` field is missing or holds the value 0 (both make the parsed total
falsy); for any other value no such error is raised. -/
theorem claim_C2_amended (dl : Downloader) (ov : VideoOpener) (oa : AudioOpener)
    (dir : String) (j : JsonInput) :
    process_video_clips dl ov oa dir j = Except.error ProcError.missingDuration ↔
      (j.duration = none ∨ j.duration = some 0) := by
  obtain ⟨d, evs⟩ := j
  cases d with
  | none => simp [process_video_clips]
  | some v =>
    by_cases hv : v = 0
    · subst hv
      simp [process_video_clips]
    · simp [process_video_clips, hv]

/-- Counterexample to C1 as stated: with one video fragment handle passed in
and a failing encode step, `compile_final_video` propagates the error with no
handle closed — the `close()` calls sit after `write_videofile` inside the
`try`, and the `except` block only logs and re-raises. -/
theorem claim_C1_cex :
    (compile_final_video 5 [(0, VideoClip.mk 640 480 2)] [] none true).ok = false ∧
      (compile_final_video 5 [(0, VideoClip.mk 640 480 2)] [] none true).closedVideo
        = [] ∧
      (compile_final_video 5 [(0, VideoClip.mk 640 480 2)] [] none true).closedAudio
        = [] := by
  refine ⟨rfl, rfl, rfl⟩

/-- C1 amended: when encoding succeeds, every fragment handle passed in (video
and audio) is closed before the call returns; when encoding fails, the error
propagates to the caller with no handle released at all. -/
theorem claim_C1_amended (total : ℚ) (vcs : List (ℚ × VideoClip))
    (acs : List (ℚ × AudioClip)) (maxD : Option ℤ) (wf : Bool) :
    (wf = false →
      (compile_final_video total vcs acs maxD wf).ok = true ∧
      (compile_final_video total vcs acs maxD wf).closedVideo = vcs.map Prod.snd ∧
      (compile_final_video total vcs acs maxD wf).closedAudio = acs.map Prod.snd) ∧
    (wf = true →
      (compile_final_video total vcs acs maxD wf).ok = false ∧
      (compile_final_video total vcs acs maxD wf).closedVideo = [] ∧
      (compile_final_video total vcs acs maxD wf).closedAudio = []) := by
  cases wf <;> simp [compile_final_video]

/-- Witness for C1 (amended) on a successful run with one video handle. -/
theorem claim_C1_witness :
    (compile_final_video 1 [((0:ℚ), VideoClip.mk 640 480 2)] [] none false).closedVideo
      = List.map Prod.snd [((0:ℚ), VideoClip.mk 640 480 2)] :=
  ((claim_C1_amended 1 [((0:ℚ), VideoClip.mk 640 480 2)] [] none false).1 rfl).2.1

/-- The composed clip a successful `compile_final_video` run hands to the
encoder: the video timeline, the audio composite when audio fragments exist,
and the `subclip` cut when the duration cap bites. -/
def composedOf (total : ℚ) (vcs : List (ℚ × VideoClip)) (acs : List (ℚ × AudioClip))
    (maxD : Option ℤ) : Composed :=
  let base : Composed := ⟨create_video_with_gaps total vcs,
    if acs.isEmpty then none else some (create_audio_with_gaps total acs), none⟩
  match maxD with
  | none => base
  | some m =>
    if m = 0 then base
    else if base.duration > (m : ℚ) then { base with cut := some (m : ℚ) } else base

lemma compile_final_video_false (total : ℚ) (vcs : List (ℚ × VideoClip))
    (acs : List (ℚ × AudioClip)) (maxD : Option ℤ) :
    compile_final_video total vcs acs maxD false =
      ⟨true, some (composedOf total vcs acs maxD),
        vcs.map Prod.snd, acs.map Prod.snd⟩ := by
  cases maxD <;> by_cases hac : acs.isEmpty <;>
    simp [compile_final_video, composedOf, hac]

lemma composedOf_audio (total : ℚ) (vcs : List (ℚ × VideoClip))
    (acs : List (ℚ × AudioClip)) (maxD : Option ℤ) :
    (composedOf total vcs acs maxD).audio =
      if acs.isEmpty then none else some (create_audio_with_gaps total acs) := by
  cases maxD with
  | none => rfl
  | some m =>
    simp only [composedOf]
    split
    · rfl
    · split <;> split <;> rfl

/-- Counterexample to C5 as stated: with `max_duration = 0` (a set value) and a
composed duration of 5 seconds exceeding it, no truncation happens — the code
guards the cap with the truthiness test `if max_duration:`, which is false for
0 — so the encoder receives duration 5, not `maxDuration`. -/
theorem claim_C5_cex :
    (compile_final_video 5 [] [] (some 0) false).encoded.map Composed.duration
        = some 5 ∧
      (5:ℚ) > ((0:ℤ) : ℚ) ∧ some (5:ℚ) ≠ some (((0:ℤ) : ℚ)) := by
  refine ⟨?_, by norm_num, by norm_num⟩
  rw [compile_final_video_false]
  simp [composedOf, Composed.duration, create_video_with_gaps, Segment.dur]

/-- C5 amended: when `maxDuration` is set to a nonzero (here: positive) value
and the composed duration exceeds it, the result is hard-cut to `[0,
maxDuration]` and the written output has duration exactly `maxDuration`;
when the composed duration does not exceed it, no cut is applied.  (For the
set value 0 the truthiness guard skips the cap entirely.) -/
theorem claim_C5_amended (total : ℚ) (vcs : List (ℚ × VideoClip))
    (acs : List (ℚ × AudioClip)) (m : ℤ) (hm : 0 < m) :
    (videoDuration (create_video_with_gaps total vcs) > (m : ℚ) →
      (compile_final_video total vcs acs (some m) false).encoded.map Composed.duration
          = some ((m : ℚ)) ∧
        (compile_final_video total vcs acs (some m) false).encoded.map Composed.cut
          = some (some ((m : ℚ)))) ∧
    (videoDuration (create_video_with_gaps total vcs) ≤ (m : ℚ) →
      (compile_final_video total vcs acs (some m) false).encoded.map Composed.duration
          = some (videoDuration (create_video_with_gaps total vcs)) ∧
        (compile_final_video total vcs acs (some m) false).encoded.map Composed.cut
          = some (none : Option ℚ)) := by
  have hm0 : m ≠ 0 := by omega
  have hmQ : ¬((m : ℚ) < 0) := not_lt.mpr (by exact_mod_cast hm.le)
  have hbase : Composed.duration
      ⟨create_video_with_gaps total vcs,
        if acs.isEmpty then none else some (create_audio_with_gaps total acs),
        none⟩ = videoDuration (create_video_with_gaps total vcs) := rfl
  constructor <;> intro hd <;> rw [compile_final_video_false] <;>
    simp only [composedOf, hbase, Option.map_some]
  · rw [if_neg hm0, if_pos hd]
    constructor
    · simp [Composed.duration, hmQ]
    · rfl
  · rw [if_neg hm0, if_neg (not_lt.mpr hd)]
    exact ⟨rfl, rfl⟩

/-- Witness for C5 (amended): total 5, no fragments (one 5 s filler), cap 2. -/
theorem claim_C5_witness :
    (compile_final_video 5 [] [] (some 2) false).encoded.map Composed.duration
      = some (((2:ℤ) : ℚ)) := by
  refine ((claim_C5_amended 5 [] [] 2 (by norm_num)).1 ?_).1
  simp [create_video_with_gaps, Segment.dur]
  norm_num

/-- The claim C10: with an empty audio fragment list, `compile_final_video`
never calls `with_audio`, so the video timeline keeps its native audio
(`audio = none` in the model); an audio composite is attached exactly when at
least one audio fragment exists. -/
theorem claim_C10 (total : ℚ) (vcs : List (ℚ × VideoClip))
    (acs : List (ℚ × AudioClip)) (maxD : Option ℤ) :
    ((compile_final_video total vcs [] maxD false).encoded.map Composed.audio
        = some none) ∧
    (acs ≠ [] →
      (compile_final_video total vcs acs maxD false).encoded.map Composed.audio
        = some (some (create_audio_with_gaps total acs))) := by
  constructor
  · rw [compile_final_video_false]
    simp [composedOf_audio]
  · intro hne
    rw [compile_final_video_false]
    simp [composedOf_audio, hne]

/-- Witness for C10 with one audio fragment present. -/
theorem claim_C10_witness :
    (compile_final_video 2 [] [((0:ℚ), AudioClip.mk 1)] none false).encoded.map
        Composed.audio
      = some (some (create_audio_with_gaps 2 [((0:ℚ), AudioClip.mk 1)])) :=
  (claim_C10 2 [] [((0:ℚ), AudioClip.mk 1)] none).2 (by simp)

lemma isEmpty_false_of_ne_nil {α : Type} {l : List α} (h : l ≠ []) :
    l.isEmpty = false := by
  cases l with
  | nil => exact absurd rfl h
  | cons a t => rfl

lemma videoLoop_eq_specVideoWalk (w h : ℕ) (current : ℚ)
    (l : List (ℚ × VideoClip)) :
    videoLoop w h current l = specVideoWalk w h current l := by
  induction l generalizing current with
  | nil => rfl
  | cons p rest ih =>
    obtain ⟨s, v⟩ := p
    by_cases hgap : (100:ℚ)⁻¹ < s - current
    · have hs : current < s := by
        have h100 : (0:ℚ) < 100⁻¹ := by norm_num
        linarith
      have hcur : current + (s - current) = s := by ring
      simp [videoLoop, specVideoWalk, hgap, hs, hcur, ih]
    · by_cases hs : current < s <;>
        simp [videoLoop, specVideoWalk, hgap, hs, ih]

lemma videoLoop_snd (w h : ℕ) (current : ℚ) (l : List (ℚ × VideoClip)) :
    (videoLoop w h current l).2 = current + videoDuration (videoLoop w h current l).1 := by
  induction l generalizing current with
  | nil => simp [videoLoop]
  | cons p rest ih =>
    obtain ⟨s, v⟩ := p
    by_cases hs : current < s
    · by_cases hgap : (100:ℚ)⁻¹ < s - current
      · simp [videoLoop, hs, hgap, ih, Segment.dur]
        ring
      · simp [videoLoop, hs, hgap, ih, Segment.dur]
        ring
    · simp [videoLoop, hs, ih, Segment.dur]
      ring

/-- The claim C3: for a non-empty fragment list the builder sorts ascending by
start time (a permutation of the input) and its output is exactly the
spec-side walk `specBuildVideo`: filler of exactly `start_time - current_time`
only when the gap exceeds 0.01 s, the fragment itself appended unshifted, and
`current_time` advanced by the fragment's own duration. -/
theorem claim_C3 (total : ℚ) (vcs : List (ℚ × VideoClip)) (hne : vcs ≠ []) :
    List.Sorted (fun a b => a.1 ≤ b.1) (sortByStart vcs) ∧
    (sortByStart vcs).Perm vcs ∧
    create_video_with_gaps total vcs = specBuildVideo total vcs := by
  refine ⟨sortByStart_sorted vcs, sortByStart_perm vcs, ?_⟩
  have hemp := isEmpty_false_of_ne_nil hne
  simp only [create_video_with_gaps, specBuildVideo, hemp, Bool.false_eq_true,
    if_false, videoLoop_eq_specVideoWalk]
  split_ifs with h1 h2 h3 <;> first | rfl | (exfalso; linarith)

/-- Witness for C3: the spec §8 scenario, one fragment at 3.0 s of length 4.0
inside a 10.0 s timeline. -/
theorem claim_C3_witness :
    create_video_with_gaps 10 [((3:ℚ), VideoClip.mk 640 480 4)]
      = specBuildVideo 10 [((3:ℚ), VideoClip.mk 640 480 4)] :=
  (claim_C3 10 [((3:ℚ), VideoClip.mk 640 480 4)] (by simp)).2.2

lemma videoDuration_create_ge (total : ℚ) (vcs : List (ℚ × VideoClip))
    (hemp : vcs.isEmpty = false) :
    videoDuration (create_video_with_gaps total vcs) ≥ total - 1/100 := by
  simp only [create_video_with_gaps, hemp, Bool.false_eq_true, if_false]
  set sorted := sortByStart vcs with hsortedDef
  set w := (sorted.headD (0, default)).2.w with hwDef
  set hh := (sorted.headD (0, default)).2.h with hhDef
  set W := videoLoop w hh 0 sorted with hWDef
  have hsnd : W.2 = 0 + videoDuration W.1 := by
    rw [hWDef]
    exact videoLoop_snd w hh 0 sorted
  split_ifs with h1 h2
  · simp only [videoDuration_append, videoDuration_cons, videoDuration_nil,
      Segment.dur]
    linarith
  · linarith
  · linarith

/-- The claim C4: for every non-empty fragment list and positive total
duration the built timeline is never shorter than `total_duration - 0.01`;
and it may exceed `total_duration` when a fragment overshoots (no trimming),
shown by a 5 s fragment in a 1 s timeline yielding duration above 1. -/
theorem claim_C4 (total : ℚ) (vcs : List (ℚ × VideoClip)) (hne : vcs ≠ [])
    (htot : 0 < total) :
    videoDuration (create_video_with_gaps total vcs) ≥ total - 1/100 ∧
    videoDuration (create_video_with_gaps 1 [((0:ℚ), VideoClip.mk 640 480 5)]) > 1 := by
  refine ⟨videoDuration_create_ge total vcs (isEmpty_false_of_ne_nil hne), ?_⟩
  norm_num [create_video_with_gaps, sortByStart, List.insertionSort,
    List.orderedInsert, videoLoop, videoDuration, Segment.dur]

/-- Witness for C4: one 1 s fragment at time 0 in a 2 s timeline. -/
theorem claim_C4_witness :
    videoDuration (create_video_with_gaps 2 [((0:ℚ), VideoClip.mk 640 480 1)])
      ≥ 2 - 1/100 :=
  (claim_C4 2 [((0:ℚ), VideoClip.mk 640 480 1)] (by simp) (by norm_num)).1

lemma le_maxEnd {t : ATrack} {l : List ATrack} (h : t ∈ l) :
    t.clipEnd ≤ maxEnd l := by
  induction l with
  | nil => cases h
  | cons u rest ih =>
    cases rest with
    | nil =>
      rw [List.mem_singleton.mp h]
      exact le_rfl
    | cons v rs =>
      rcases List.mem_cons.mp h with he | hm
      · rw [he]
        exact le_max_left _ _
      · exact (ih hm).trans (le_max_right _ _)

/-- Projection of a composite member back to the `(start_time, fragment)` pair
it was scheduled from; silence fillers project to nothing. -/
def trackFile : ATrack → Option (ℚ × AudioClip)
  | .file s a => some (s, a)
  | .silence _ _ => none

lemma filterMap_trackFile_map (l : List (ℚ × AudioClip)) :
    (l.map (fun p => ATrack.file p.1 p.2)).filterMap trackFile = l := by
  induction l with
  | nil => rfl
  | cons p rest ih => simp [trackFile, ih]

/-- C6 amended: every audio fragment is scheduled at its own start time and
all are present in the composite (the composite's members project back to a
permutation of the input, so duplicates and identical start times survive);
the composite's duration is at least `total_duration - 0.01`; and when the
natural end falls short of `total_duration` by more than 0.01 s, one trailing
silent segment is added, starting exactly at the natural end, but holding
`int((total_duration - end) * 44100)` whole samples — so it runs to within one
sample (1/44100 s) of `total_duration` rather than exactly to it. -/
theorem claim_C6_amended (total : ℚ) (acs : List (ℚ × AudioClip)) (hne : acs ≠ []) :
    ((create_audio_with_gaps total acs).filterMap trackFile).Perm acs ∧
    maxEnd (create_audio_with_gaps total acs) ≥ total - 1/100 ∧
    (total - maxEnd ((sortByStart acs).map (fun p => ATrack.file p.1 p.2)) > 1/100 →
      create_audio_with_gaps total acs
        = (sortByStart acs).map (fun p => ATrack.file p.1 p.2)
          ++ [ATrack.silence
                (maxEnd ((sortByStart acs).map (fun p => ATrack.file p.1 p.2)))
                (pyInt ((total
                  - maxEnd ((sortByStart acs).map (fun p => ATrack.file p.1 p.2)))
                  * 44100))]) := by
  have hemp := isEmpty_false_of_ne_nil hne
  have h44 : (0:ℚ) < 44100 := by norm_num
  refine ⟨?_, ?_, ?_⟩
  · simp only [create_audio_with_gaps, hemp, Bool.false_eq_true, if_false]
    split_ifs with h1 h2
    · rw [List.filterMap_append, filterMap_trackFile_map]
      simp only [List.filterMap_cons, trackFile, List.filterMap_nil, List.append_nil]
      exact sortByStart_perm acs
    · rw [filterMap_trackFile_map]
      exact sortByStart_perm acs
    · rw [filterMap_trackFile_map]
      exact sortByStart_perm acs
  · simp only [create_audio_with_gaps, hemp, Bool.false_eq_true, if_false]
    split_ifs with h1 h2
    · have hpos : (0:ℚ) <
          (total - maxEnd ((sortByStart acs).map fun p => ATrack.file p.1 p.2))
            * 44100 := by
        have : (0:ℚ) <
            total - maxEnd ((sortByStart acs).map fun p => ATrack.file p.1 p.2) := by
          linarith
        exact mul_pos this h44
      have hpy : pyInt ((total
            - maxEnd ((sortByStart acs).map fun p => ATrack.file p.1 p.2)) * 44100)
          = ⌊(total
            - maxEnd ((sortByStart acs).map fun p => ATrack.file p.1 p.2)) * 44100⌋ := by
        rw [pyInt, if_neg (not_lt.mpr hpos.le)]
      rw [hpy]
      have hmem : (ATrack.silence
            (maxEnd ((sortByStart acs).map fun p => ATrack.file p.1 p.2))
            ⌊(total
              - maxEnd ((sortByStart acs).map fun p => ATrack.file p.1 p.2)) * 44100⌋)
          ∈ ((sortByStart acs).map fun p => ATrack.file p.1 p.2)
            ++ [ATrack.silence
              (maxEnd ((sortByStart acs).map fun p => ATrack.file p.1 p.2))
              ⌊(total
                - maxEnd ((sortByStart acs).map fun p => ATrack.file p.1 p.2))
                * 44100⌋] :=
        List.mem_append_right _ (List.mem_singleton.mpr rfl)
      have hle := le_maxEnd hmem
      have hcast : (total
            - maxEnd ((sortByStart acs).map fun p => ATrack.file p.1 p.2)) * 44100 - 1
          < ((⌊(total
            - maxEnd ((sortByStart acs).map fun p => ATrack.file p.1 p.2)) * 44100⌋
            : ℤ) : ℚ) :=
        Int.sub_one_lt_floor _
      have hdiv : total
            - maxEnd ((sortByStart acs).map fun p => ATrack.file p.1 p.2) - 1/44100
          < ((⌊(total
            - maxEnd ((sortByStart acs).map fun p => ATrack.file p.1 p.2)) * 44100⌋
            : ℤ) : ℚ) / 44100 := by
        rw [lt_div_iff h44]
        calc (total - maxEnd ((sortByStart acs).map fun p => ATrack.file p.1 p.2)
              - 1/44100) * 44100
            = (total - maxEnd ((sortByStart acs).map fun p => ATrack.file p.1 p.2))
              * 44100 - 1 := by ring
          _ < _ := hcast
      rw [ATrack.clipEnd] at hle
      linarith
    · linarith
    · linarith
  · intro hgap
    have h1 : maxEnd ((sortByStart acs).map fun p => ATrack.file p.1 p.2) < total := by
      linarith
    simp only [create_audio_with_gaps, hemp, Bool.false_eq_true, if_false]
    rw [if_pos h1, if_pos hgap]

/-- Witness for C6 (amended): the spec §8 scenario of two overlapping audio
fragments `(0.0, 3.0)` and `(1.0, 3.0)` in a 4.0 s timeline. -/
theorem claim_C6_witness :
    maxEnd (create_audio_with_gaps 4
        [((0:ℚ), AudioClip.mk 3), ((1:ℚ), AudioClip.mk 3)])
      ≥ 4 - 1/100 :=
  (claim_C6_amended 4 [((0:ℚ), AudioClip.mk 3), ((1:ℚ), AudioClip.mk 3)]
    (by simp)).2.1

/-- Counterexample to C6 as stated: one 1 s fragment at time 0 with
`total_duration = 3.000005`.  The trailing silence is added and starts at the
natural end 1, but holds `int(2.000005 * 44100) = 88200` whole samples, so it
ends at exactly 3 — short of `total_duration`, not running to it. -/
theorem claim_C6_cex :
    create_audio_with_gaps (600001/200000) [((0:ℚ), AudioClip.mk 1)]
        = [ATrack.file 0 (AudioClip.mk 1), ATrack.silence 1 88200] ∧
      ATrack.clipEnd (ATrack.silence 1 88200) = 3 ∧
      (3:ℚ) < 600001/200000 := by
  have hd : maxEnd [ATrack.file (0:ℚ) (AudioClip.mk 1)] = 1 := by
    simp [maxEnd, ATrack.clipEnd]
  have hfl : pyInt ((176400441:ℚ)/2000) = 88200 := by
    rw [pyInt, if_neg (by norm_num)]
    apply Int.floor_eq_iff.mpr
    constructor <;> norm_num
  refine ⟨?_, ?_, by norm_num⟩
  · have e1 : sortByStart [((0:ℚ), AudioClip.mk 1)] = [((0:ℚ), AudioClip.mk 1)] := rfl
    simp only [create_audio_with_gaps, e1, List.isEmpty_cons, Bool.false_eq_true,
      if_false, List.map_cons, List.map_nil]
    rw [hd]
    rw [if_pos (by norm_num : (1:ℚ) < 600001/200000)]
    rw [if_pos (by norm_num : (600001:ℚ)/200000 - 1 > 1/100)]
    have harg : ((600001:ℚ)/200000 - 1) * 44100 = 176400441/2000 := by norm_num
    rw [harg, hfl]
    rfl
  · rw [ATrack.clipEnd]
    norm_num

/-- C7 amended: with no audio fragments the mixer returns a single silent
stereo 44100 Hz track starting at 0 and holding `int(total_duration * 44100)`
samples; its duration is `⌊total_duration·44100⌋ / 44100` — within one sample
(1/44100 s) below `total_duration`, and exactly `total_duration` precisely
when `total_duration · 44100` is a whole number of samples. -/
theorem claim_C7_amended (total : ℚ) (ht : 0 < total) :
    create_audio_with_gaps total [] = [ATrack.silence 0 ⌊total * 44100⌋] ∧
    maxEnd (create_audio_with_gaps total []) = ((⌊total * 44100⌋ : ℤ) : ℚ) / 44100 ∧
    total - 1/44100 < ((⌊total * 44100⌋ : ℤ) : ℚ) / 44100 ∧
    ((⌊total * 44100⌋ : ℤ) : ℚ) / 44100 ≤ total ∧
    ((total * 44100).den = 1 → maxEnd (create_audio_with_gaps total []) = total) := by
  have h44 : (0:ℚ) < 44100 := by norm_num
  have hq : ¬(total * 44100 < 0) := not_lt.mpr (by positivity)
  have h1 : create_audio_with_gaps total [] = [ATrack.silence 0 ⌊total * 44100⌋] := by
    simp only [create_audio_with_gaps, List.isEmpty_nil, if_true]
    rw [pyInt, if_neg hq]
  have h2 : maxEnd [ATrack.silence 0 ⌊total * 44100⌋]
      = ((⌊total * 44100⌋ : ℤ) : ℚ) / 44100 := by
    simp [maxEnd, ATrack.clipEnd]
  have h3 : total - 1/44100 < ((⌊total * 44100⌋ : ℤ) : ℚ) / 44100 := by
    rw [lt_div_iff h44]
    calc (total - 1/44100) * 44100 = total * 44100 - 1 := by ring
      _ < _ := Int.sub_one_lt_floor _
  have h4 : ((⌊total * 44100⌋ : ℤ) : ℚ) / 44100 ≤ total := by
    rw [div_le_iff h44]
    exact Int.floor_le _
  refine ⟨h1, by rw [h1]; exact h2, h3, h4, ?_⟩
  intro hden
  rw [h1, h2]
  have hnum : ((total * 44100).num : ℚ) = total * 44100 := (Rat.den_eq_one_iff _).mp hden
  rw [← hnum, Int.floor_intCast, hnum]
  exact mul_div_cancel_right₀ total (by norm_num)

/-- Witness for C7 (amended) at `total_duration = 5`: `5 · 44100` is a whole
sample count, so the silence is exactly 5 s long. -/
theorem claim_C7_witness :
    maxEnd (create_audio_with_gaps 5 []) = 5 :=
  (claim_C7_amended 5 (by norm_num)).2.2.2.2
    (by rw [show ((5:ℚ) * 44100) = ((220500:ℤ) : ℚ) from by norm_num]
        exact Rat.den_intCast 220500)

/-- Counterexample to C7 as stated: `total_duration = 0.100001` is strictly
positive, but the returned silence holds `int(0.100001 * 44100) = 4410`
samples, i.e. lasts exactly 0.1 s, not `total_duration`. -/
theorem claim_C7_cex :
    (0:ℚ) < 100001/1000000 ∧
      maxEnd (create_audio_with_gaps (100001/1000000) []) = 1/10 ∧
      (1/10 : ℚ) ≠ 100001/1000000 := by
  have hfl : pyInt ((100001:ℚ)/1000000 * 44100) = 4410 := by
    rw [pyInt, if_neg (by norm_num)]
    rw [show ((100001:ℚ)/1000000) * 44100 = 44100441/10000 from by norm_num]
    apply Int.floor_eq_iff.mpr
    constructor <;> norm_num
  refine ⟨by norm_num, ?_, by norm_num⟩
  simp only [create_audio_with_gaps, List.isEmpty_nil, if_true]
  rw [hfl]
  simp [maxEnd, ATrack.clipEnd]
  norm_num

/-- What one event contributes to the two fragment lists, independently of the
accumulator: at most one loaded video fragment or one loaded audio fragment. -/
def eventDelta (dl : Downloader) (ov : VideoOpener) (oa : AudioOpener)
    (directory : String) : JsonEvent → List (ℚ × VideoClip) × List (ℚ × AudioClip)
  | .nonDict => ([], [])
  | .dict dataOpt rt =>
    match dataOpt with
    | none => ([], [])
    | some .nonDict => ([], [])
    | some (.dictData none) => ([], [])
    | some (.dictData (some url)) =>
      let start_time := rt.getD 0
      match dl url directory with
      | none => ([], [])
      | some path =>
        match ov path with
        | some v => ([(start_time, v)], [])
        | none =>
          match oa path with
          | some a => ([], [(start_time, a)])
          | none => ([], [])

lemma processEvent_eq_delta (dl : Downloader) (ov : VideoOpener) (oa : AudioOpener)
    (dir : String) (acc : List (ℚ × VideoClip) × List (ℚ × AudioClip))
    (e : JsonEvent) :
    processEvent dl ov oa dir acc e =
      (acc.1 ++ (eventDelta dl ov oa dir e).1,
       acc.2 ++ (eventDelta dl ov oa dir e).2) := by
  cases e with
  | nonDict => simp [processEvent, eventDelta]
  | dict dataOpt rt =>
    cases dataOpt with
    | none => simp [processEvent, eventDelta]
    | some jd =>
      cases jd with
      | nonDict => simp [processEvent, eventDelta]
      | dictData u =>
        cases u with
        | none => simp [processEvent, eventDelta]
        | some url =>
          rcases hdl : dl url dir with _ | path
          · simp [processEvent, eventDelta, hdl]
          · rcases hov : ov path with _ | v
            · rcases hoa : oa path with _ | a
              · simp [processEvent, eventDelta, hdl, hov, hoa]
              · simp [processEvent, eventDelta, hdl, hov, hoa]
            · simp [processEvent, eventDelta, hdl, hov]

lemma foldl_processEvent (dl : Downloader) (ov : VideoOpener) (oa : AudioOpener)
    (dir : String) (es : List JsonEvent) (v : List (ℚ × VideoClip))
    (a : List (ℚ × AudioClip)) :
    es.foldl (processEvent dl ov oa dir) (v, a) =
      (v ++ (es.map fun e => (eventDelta dl ov oa dir e).1).flatten,
       a ++ (es.map fun e => (eventDelta dl ov oa dir e).2).flatten) := by
  induction es generalizing v a with
  | nil => simp
  | cons e rest ih =>
    rw [List.foldl_cons, processEvent_eq_delta]
    rw [ih]
    simp [List.append_assoc]

/-- The claim C9: `process_video_clips` surfaces only the missing-duration
error, never a fragment failure; an event whose downloaded file fails both the
video and the audio decoder is dropped and the run continues exactly as if the
event were absent; and an event whose file fails the video decoder but opens
as audio lands in the audio list. -/
theorem claim_C9 (dl : Downloader) (ov : VideoOpener) (oa : AudioOpener)
    (dir : String) (j : JsonInput) :
    ((process_video_clips dl ov oa dir j).isOk = true ∨
      process_video_clips dl ov oa dir j = Except.error ProcError.missingDuration) ∧
    (∀ pre post url rt path,
      dl url dir = some path → ov path = none → oa path = none →
      process_video_clips dl ov oa dir
          ⟨j.duration, pre ++ JsonEvent.dict (some (JsonData.dictData (some url))) rt :: post⟩
        = process_video_clips dl ov oa dir ⟨j.duration, pre ++ post⟩) ∧
    (∀ pre post url rt path a, j.duration.getD 0 ≠ 0 →
      dl url dir = some path → ov path = none → oa path = some a →
      ∃ vs curAudio,
        process_video_clips dl ov oa dir
            ⟨j.duration, pre ++ JsonEvent.dict (some (JsonData.dictData (some url))) rt :: post⟩
          = Except.ok (j.duration.getD 0, vs, curAudio) ∧
        (rt.getD 0, a) ∈ curAudio) := by
  refine ⟨?_, ?_, ?_⟩
  · by_cases h0 : j.duration.getD 0 = 0
    · right
      simp [process_video_clips, h0]
    · left
      simp [process_video_clips, h0, Except.isOk, Except.toBool]
  · intro pre post url rt path hdl hov hoa
    by_cases h0 : j.duration.getD 0 = 0
    · simp [process_video_clips, h0]
    · have hdelta : eventDelta dl ov oa dir
          (JsonEvent.dict (some (JsonData.dictData (some url))) rt) = ([], []) := by
        simp [eventDelta, hdl, hov, hoa]
      simp only [process_video_clips, h0, if_false]
      rw [foldl_processEvent, foldl_processEvent]
      simp [hdelta]
  · intro pre post url rt path a h0 hdl hov hoa
    have hdelta : eventDelta dl ov oa dir
        (JsonEvent.dict (some (JsonData.dictData (some url))) rt)
        = ([], [(rt.getD 0, a)]) := by
      simp [eventDelta, hdl, hov, hoa]
    simp only [process_video_clips, h0, if_false, foldl_processEvent]
    refine ⟨_, _, rfl, ?_⟩
    simp [hdelta]

/-- Witness for C9: a fully undecodable fragment event is dropped and the run
proceeds as if it were absent. -/
theorem claim_C9_witness :
    process_video_clips dlSome ovNone oaNone "dir"
        ⟨some 7, [JsonEvent.dict (some (JsonData.dictData (some "u"))) none]⟩
      = process_video_clips dlSome ovNone oaNone "dir" ⟨some 7, []⟩ :=
  (claim_C9 dlSome ovNone oaNone "dir" ⟨some 7, []⟩).2.1 [] [] "u" none
    "chunk.mts" rfl rfl rfl

end Mtslinker
